import Mathlib

/-!
Shallow embedding of `src/zmq_plugin.cpp` (eosio `zmq_plugin_impl`):
the trace correlator / fork detector, the action-tree walker, the
enrichment loop and the message framing, with explicit state passing
and an explicit trace of events, lookups and log lines.
-/

namespace ZmqPlugin

/-- EOSIO account / action names (`eosio::chain::name`), modelled by their
string spelling; only equality and set membership matter here. -/
abbrev Name := String

/-- Transaction identifiers (`transaction_id_type`), kept abstract as a string
(`id.str()` is what the plugin serializes). -/
abbrev TxId := String

/-- The value of `config::system_account_name` (the `eosio` system/governance contract). -/
def system_account_name : Name := "eosio"

/-- Typed payloads the per-action dispatch table of
`find_accounts_and_tokens` decodes via `data_as<T>`; one constructor per
`case` of the `switch`, carrying exactly the fields the case reads.
`raw` stands for any payload the switch does not decode. -/
inductive ActionData : Type where
  | newaccount (name : Name)
  | setcode (account : Name)
  | setabi (account : Name)
  | updateauth (account : Name)
  | deleteauth (account : Name)
  | linkauth (account : Name)
  | unlinkauth (account : Name)
  | buyrambytes (payer receiver : Name)
  | buyram (payer receiver : Name)
  | sellram (account : Name)
  | delegatebw (sender receiver : Name)
  | undelegatebw (sender receiver : Name)
  | refund (owner : Name)
  | regproducer (producer : Name)
  | bidname
  | unregprod (producer : Name)
  | regproxy (proxy : Name)
  | voteproducer (voter : Name) (proxy : Name) (producers : List Name)
  | claimrewards (owner : Name)
  | raw
deriving Repr, DecidableEq

/-- One `chain::action`: the contract account, the action name and its payload. -/
structure Action : Type where
  account : Name
  name : Name
  data : ActionData
deriving Repr, DecidableEq

/-- One `chain::action_trace`: one executed action with its receipt's receiver and
global sequence number, and the nested inline action traces. -/
inductive ActionTrace : Type where
  | mk (act : Action) (receiver : Name) (global_sequence : Nat)
       (inline_traces : List ActionTrace)

def ActionTrace.act : ActionTrace → Action
  | .mk a _ _ _ => a

def ActionTrace.receiver : ActionTrace → Name
  | .mk _ r _ _ => r

def ActionTrace.global_sequence : ActionTrace → Nat
  | .mk _ _ g _ => g

def ActionTrace.inline_traces : ActionTrace → List ActionTrace
  | .mk _ _ _ l => l

/-- Insertion into a `std::set<name>`: add the element if it is not already present.
(Only membership and uniqueness of a `std::set` are relied upon.) -/
def insertName (n : Name) (s : List Name) : List Name :=
  if n ∈ s then s else s ++ [n]

/-- The dispatch table of `find_accounts_and_tokens` for actions of the
system contract: the accounts each `case` inserts, in insertion order.
Matches on the action name together with the payload the `case` decodes
with `data_as<T>`; a name/payload mismatch or an unlisted name falls
through to the default (no extra accounts). -/
def sysContractAccounts (a : Action) : List Name :=
  match a.name, a.data with
  | "newaccount", .newaccount n => [n]
  | "setcode", .setcode acc => [acc]
  | "setabi", .setabi acc => [acc]
  | "updateauth", .updateauth acc => [acc]
  | "deleteauth", .deleteauth acc => [acc]
  | "linkauth", .linkauth acc => [acc]
  | "unlinkauth", .unlinkauth acc => [acc]
  | "buyrambytes", .buyrambytes payer receiver =>
      if receiver ≠ payer then [payer, receiver] else [payer]
  | "buyram", .buyram payer receiver =>
      if receiver ≠ payer then [payer, receiver] else [payer]
  | "sellram", .sellram acc => [acc]
  | "delegatebw", .delegatebw s receiver =>
      if receiver ≠ s then [s, receiver] else [s]
  | "undelegatebw", .undelegatebw s receiver =>
      if receiver ≠ s then [s, receiver] else [s]
  | "refund", .refund owner => [owner]
  | "regproducer", .regproducer producer => [producer]
  | "bidname", .bidname => []
  | "unregprod", .unregprod producer => [producer]
  | "regproxy", .regproxy proxy => [proxy]
  | "voteproducer", .voteproducer voter proxy _ =>
      if proxy ≠ "" then [voter, proxy] else [voter]
  | "claimrewards", .claimrewards owner => [owner]
  | _, _ => []

mutual
/-- The walker `zmq_plugin_impl::find_accounts_and_tokens`: walk one action trace,
threading the `accounts` and `token_contracts` sets. -/
def find_accounts_and_tokens (t : ActionTrace)
    (accounts token_contracts : List Name) : List Name × List Name :=
  match t with
  | .mk act receiver _ inls =>
    let accounts := insertName act.account accounts
    let accounts :=
      if receiver ≠ act.account then insertName receiver accounts
      else accounts
    let accounts :=
      if act.account = system_account_name then
        (sysContractAccounts act).foldl (fun s n => insertName n s) accounts
      else accounts
    let token_contracts :=
      if act.account ≠ system_account_name ∧
         (act.name = "transfer" ∨ act.name = "issue" ∨ act.name = "open") then
        insertName act.account token_contracts
      else token_contracts
    find_accounts_and_tokens_list inls accounts token_contracts

/-- The `for` loop over `at.inline_traces` at the end of
`find_accounts_and_tokens`. -/
def find_accounts_and_tokens_list (l : List ActionTrace)
    (accounts token_contracts : List Name) : List Name × List Name :=
  match l with
  | [] => (accounts, token_contracts)
  | x :: xs =>
    let p := find_accounts_and_tokens x accounts token_contracts
    find_accounts_and_tokens_list xs p.1 p.2
end

mutual
/-- Preorder list of every node of an action tree (the action itself and,
recursively, all of its nested inline traces); used to state tree-wide
properties of the walker. -/
def allNodes : ActionTrace → List ActionTrace
  | .mk act receiver g inls => .mk act receiver g inls :: allNodesList inls

/-- Extension of `allNodes` over a list of sibling traces. -/
def allNodesList : List ActionTrace → List ActionTrace
  | [] => []
  | x :: xs => allNodes x ++ allNodesList xs
end

/-- The enum `transaction_receipt_header::status_enum`. -/
inductive TxStatus : Type where
  | executed
  | soft_fail
  | hard_fail
  | delayed
  | expired
deriving Repr, DecidableEq

/-- The value `static_cast<uint8_t>(r.status)`: the raw numeric value of the status
enum (the enumerator order of `status_enum`). -/
def statusInt : TxStatus → Nat
  | .executed => 0
  | .soft_fail => 1
  | .hard_fail => 2
  | .delayed => 3
  | .expired => 4

/-- A `chain::transaction_trace` as the plugin reads it: the transaction id,
whether `p->receipt` is present, and the top-level action traces. -/
structure TransactionTrace : Type where
  id : TxId
  receipt : Bool
  action_traces : List ActionTrace

/-- The variant inside a `transaction_receipt`: either a bare
`transaction_id_type` or a `packed_transaction` (from which `.id()` is
derived; we carry that derived id). -/
inductive TrxVariant : Type where
  | bare (i : TxId)
  | packed (i : TxId)
deriving Repr, DecidableEq

/-- Resolution of the receipt's transaction id in `on_accepted_block`:
`r.trx.get<transaction_id_type>()` or `r.trx.get<packed_transaction>().id()`. -/
def trx_id : TrxVariant → TxId
  | .bare i => i
  | .packed i => i

/-- One entry of `block_state->block->transactions`. -/
structure TransactionReceipt : Type where
  trx : TrxVariant
  status : TxStatus
deriving Repr, DecidableEq

/-- The part of `block_state` the plugin reads: block number, digest,
timestamp and the transaction receipts. -/
structure Block : Type where
  block_num : Nat
  digest : String
  timestamp : Nat
  transactions : List TransactionReceipt

/-- The struct `chain::resource_limits::account_resource_limit` (opaque triple). -/
structure AccountResourceLimit : Type where
  used : Int
  available : Int
  maximum : Int
deriving Repr, DecidableEq

/-- A token balance row (`eosio::chain::asset`), abstracted to its amount and
symbol spelling. -/
structure Asset : Type where
  amount : Int
  symbol : Name
deriving Repr, DecidableEq

/-- The struct `zmqplugin::resource_balance`. -/
structure ResourceBalance : Type where
  account_name : Name
  ram_quota : Int
  ram_usage : Int
  net_weight : Int
  cpu_weight : Int
  net_limit : AccountResourceLimit
  cpu_limit : AccountResourceLimit

/-- The struct `zmqplugin::currency_balance`. -/
structure CurrencyBalance : Type where
  account_name : Name
  contract : Name
  balance : Asset

/-- The struct `zmqplugin::zmq_action_object`; `action_trace` holds the trace that
`chain.to_variant_with_abi` would serialize unchanged. -/
structure ZmqActionObject : Type where
  global_action_seq : Nat
  block_num : Nat
  block_time : Nat
  action_trace : ActionTrace
  resource_balances : List ResourceBalance
  currency_balances : List CurrencyBalance
  last_irreversible_block : Nat

/-- The five event kinds the plugin emits, with the payload fields of the
corresponding `zmqplugin` object. -/
inductive Event : Type where
  | actionTrace (zao : ZmqActionObject)
  | irreversibleBlock (num : Nat) (digest : String)
  | fork (invalid_block_num : Nat)
  | acceptedBlock (num : Nat) (digest : String)
  | failedTransaction (trx_id : TxId) (block_num : Nat)
      (status_name : TxStatus) (status_int : Nat)

/-- Recognizer for Fork events (statement vocabulary). -/
def isFork : Event → Bool
  | .fork _ => true
  | _ => false

/-- The mutable state of `zmq_plugin_impl`: the trace cache and the
highest block number seen (`_end_block`). -/
structure PluginState : Type where
  cached_traces : List (TxId × TransactionTrace)
  _end_block : Nat

/-- Assignment through `std::map::operator[]`: this replaces by assignment: replace the value at an
existing key, otherwise insert the pair. -/
def mapInsert (k : TxId) (v : TransactionTrace) :
    List (TxId × TransactionTrace) → List (TxId × TransactionTrace)
  | [] => [(k, v)]
  | kv :: rest => if kv.1 = k then (k, v) :: rest else kv :: mapInsert k v rest

/-- Lookup via `std::map::find`, as an association-list lookup. -/
def mapFind (m : List (TxId × TransactionTrace)) (k : TxId) :
    Option TransactionTrace :=
  match m with
  | [] => none
  | kv :: rest => if kv.1 = k then some kv.2 else mapFind rest k

/-- The handler `zmq_plugin_impl::on_applied_transaction`: cache the trace under its id
when it carries a receipt, otherwise do nothing. -/
def on_applied_transaction (st : PluginState) (p : TransactionTrace) :
    PluginState :=
  if p.receipt then
    { st with cached_traces := mapInsert p.id p st.cached_traces }
  else st

/-- The `system_accounts` set built in the `zmq_plugin_impl` constructor. -/
def system_accounts : List Name :=
  [system_account_name,
   "eosio.msig", "eosio.token", "eosio.ram", "eosio.ramfee",
   "eosio.stake", "eosio.vpay", "eosio.bpay", "eosio.saving"]

/-- The `blacklist_actions` map built in the `zmq_plugin_impl` constructor:
contract account to the set of suppressed action names. -/
def blacklist_actions : List (Name × List Name) :=
  [(system_account_name, ["onblock"]),
   ("blocktwitter", ["tweet"])]

/-- The blacklist check at the top of `on_action_trace`:
`blacklist_actions.find(at.act.account)` and then a set lookup of
`at.act.name` in the found entry. -/
def blacklisted (account act_name : Name) : Bool :=
  match blacklist_actions.find? (fun kv => kv.1 == account) with
  | some kv => if act_name ∈ kv.2 then true else false
  | none => false

/-- The check `zmq_plugin_impl::is_account_of_interest`: false exactly on members of
`system_accounts`. -/
def is_account_of_interest (account_name : Name) : Bool :=
  if account_name ∈ system_accounts then false else true

/-- The read-only chain services `on_action_trace` consults, one field per
external call the source makes (`get_resource_limits_manager`, greylist
status, and the token table scan of `add_currency_balances`, abstracted to
the list of validly decoded balance rows for a (contract, account) scope). -/
structure ChainEnv : Type where
  get_account_limits : Name → Int × Int × Int
  is_resource_greylisted : Name → Bool
  get_account_net_limit_ex : Name → Bool → AccountResourceLimit
  get_account_cpu_limit_ex : Name → Bool → AccountResourceLimit
  get_account_ram_usage : Name → Int
  token_rows : Name → Name → List Asset
  last_irreversible_block_num : Nat

/-- The helper `zmq_plugin_impl::add_account_resource`: query the resource services for
one account and append the resulting `resource_balance` to the event. -/
def add_account_resource (env : ChainEnv) (zao : ZmqActionObject)
    (account_name : Name) : ZmqActionObject :=
  let lims := env.get_account_limits account_name
  let grelisted := env.is_resource_greylisted account_name
  { zao with resource_balances := zao.resource_balances ++
      [{ account_name := account_name
         ram_quota := lims.1
         ram_usage := env.get_account_ram_usage account_name
         net_weight := lims.2.1
         cpu_weight := lims.2.2
         net_limit := env.get_account_net_limit_ex account_name (!grelisted)
         cpu_limit := env.get_account_cpu_limit_ex account_name (!grelisted) }] }

/-- The helper `zmq_plugin_impl::add_currency_balances`: append one `currency_balance`
per validly decoded row of the contract's `accounts` table scoped to the
account. -/
def add_currency_balances (env : ChainEnv) (zao : ZmqActionObject)
    (account_name token_code : Name) : ZmqActionObject :=
  let rows := (env.token_rows token_code account_name).map
    (fun bal => { account_name := account_name, contract := token_code,
                  balance := bal : CurrencyBalance })
  { zao with currency_balances := zao.currency_balances ++ rows }

/-- The event under construction together with the explicit trace of
enrichment lookups performed: which accounts had their resources fetched
(`add_account_resource` calls) and which (account, contract) pairs had a
token-balance scan (`add_currency_balances` calls). -/
structure EnrichResult : Type where
  zao : ZmqActionObject
  resource_lookups : List Name
  currency_lookups : List (Name × Name)

/-- One iteration of the account loop of `on_action_trace`: skip accounts
that are not of interest; otherwise fetch the resource snapshot and scan
every discovered token contract for this account. -/
def enrich_step (env : ChainEnv) (token_contracts : List Name)
    (acc : EnrichResult) (a : Name) : EnrichResult :=
  if is_account_of_interest a then
    { zao := token_contracts.foldl
               (fun z c => add_currency_balances env z a c)
               (add_account_resource env acc.zao a)
      resource_lookups := acc.resource_lookups ++ [a]
      currency_lookups := acc.currency_lookups ++
        token_contracts.map (fun c => (a, c)) }
  else acc

/-- The handler `zmq_plugin_impl::on_action_trace`: `none` when the action is
blacklisted (the early `return`), otherwise the built event and the
lookups performed while enriching it. -/
def on_action_trace (env : ChainEnv) (blk : Block) (atr : ActionTrace) :
    Option EnrichResult :=
  if blacklisted atr.act.account atr.act.name then none
  else
    let zao : ZmqActionObject :=
      { global_action_seq := atr.global_sequence
        block_num := blk.block_num
        block_time := blk.timestamp
        action_trace := atr
        resource_balances := []
        currency_balances := []
        last_irreversible_block := env.last_irreversible_block_num }
    let p := find_accounts_and_tokens atr [] []
    some (p.1.foldl (enrich_step env p.2) ⟨zao, [], []⟩)

/-- The lookups performed by one `on_action_trace` call (empty when the
action is blacklisted and the call returns early). -/
def action_trace_lookups (env : ChainEnv) (blk : Block) (atr : ActionTrace) :
    List Name × List (Name × Name) :=
  match on_action_trace env blk atr with
  | none => ([], [])
  | some res => (res.resource_lookups, res.currency_lookups)

/-- The body of the receipt loop of `on_accepted_block` for one receipt:
the events emitted for it and the ids logged as missing
(`ilog("missing trace for transaction ...")` before `continue`). -/
def process_receipt (env : ChainEnv) (cache : List (TxId × TransactionTrace))
    (blk : Block) (r : TransactionReceipt) : List Event × List TxId :=
  let id := trx_id r.trx
  if r.status = TxStatus.executed then
    match mapFind cache id with
    | some tr =>
      if tr.receipt then
        (tr.action_traces.filterMap
          (fun a => (on_action_trace env blk a).map
                      (fun res => Event.actionTrace res.zao)), [])
      else ([], [id])
    | none => ([], [id])
  else
    ([Event.failedTransaction id blk.block_num r.status (statusInt r.status)],
     [])

/-- The handler `zmq_plugin_impl::on_accepted_block`: the next state, the events emitted
in order, and the log lines, for one accepted-block notification. -/
def on_accepted_block (env : ChainEnv) (st : PluginState) (blk : Block) :
    PluginState × List Event × List TxId :=
  let block_num := blk.block_num
  let forkEvents :=
    if st._end_block ≥ block_num then [Event.fork block_num] else []
  let txOuts := blk.transactions.map (process_receipt env st.cached_traces blk)
  ({ cached_traces := [], _end_block := block_num },
   forkEvents ++ [Event.acceptedBlock block_num blk.digest] ++
     (txOuts.map Prod.fst).flatten,
   (txOuts.map Prod.snd).flatten)

/-- The handler `zmq_plugin_impl::on_irreversible_block`. -/
def on_irreversible_block (blk : Block) : Event :=
  Event.irreversibleBlock blk.block_num blk.digest

/-- The message type constants of the anonymous namespace. -/
def MSGTYPE_ACTION_TRACE : Int := 0

def MSGTYPE_IRREVERSIBLE_BLOCK : Int := 1

def MSGTYPE_FORK : Int := 2

def MSGTYPE_ACCEPTED_BLOCK : Int := 3

def MSGTYPE_FAILED_TX : Int := 4

/-- Little-endian bytes of a 32-bit value (the `memcpy` of an `int32_t` on
the plugin's little-endian target). -/
def toBytes4 (n : Nat) : List Nat :=
  [n % 256, n / 256 % 256, n / 65536 % 256, n / 16777216 % 256]

/-- The 4 bytes an `int32_t` occupies in the frame (two's complement). -/
def int32ToBytes (v : Int) : List Nat :=
  toBytes4 (v % 4294967296).toNat

/-- The framing of `zmq_plugin_impl::send_msg`: the bytes of the frame handed to the
socket — 4 bytes of `msgtype`, 4 bytes of `msgopts`, then the document
bytes with no length field. -/
def send_msg (content : List Nat) (msgtype : Int) (msgopts : Int) :
    List Nat :=
  int32ToBytes msgtype ++ int32ToBytes msgopts ++ content

/-- Modelled from the spec: the consumer-side read of a 4-byte
little-endian two's-complement integer (the repository contains no
decoder; §4.4/§8 require the 8-byte header round-trip). -/
def bytesToNat4 : List Nat → Nat
  | b0 :: b1 :: b2 :: b3 :: _ => b0 + 256 * b1 + 65536 * b2 + 16777216 * b3
  | _ => 0

/-- Modelled from the spec: signed reinterpretation of the decoded 32-bit
value. -/
def int32OfBytes (b : List Nat) : Int :=
  let n := bytesToNat4 b
  if n < 2147483648 then (n : Int) else (n : Int) - 4294967296

/-- Modelled from the spec: decoding the 8-byte frame header back into the
(message-type, options) pair. -/
def decode_header (frame : List Nat) : Int × Int :=
  (int32OfBytes (frame.take 4), int32OfBytes ((frame.drop 4).take 4))

/-- The property of a tree node that makes the walker record its contract
account as a token contract: a `transfer`/`issue`/`open` action on a
non-system contract. -/
def tokenNode (c : Name) (u : ActionTrace) : Prop :=
  u.act.account = c ∧ u.act.account ≠ system_account_name ∧
  (u.act.name = "transfer" ∨ u.act.name = "issue" ∨ u.act.name = "open")

/-- The skip condition of the executed branch of the receipt loop:
`it == cached_traces.end() || !it->second->receipt`. -/
def trace_missing (cache : List (TxId × TransactionTrace)) (id : TxId) :
    Bool :=
  match mapFind cache id with
  | none => true
  | some tr => !tr.receipt

/-- A concrete chain environment used to evaluate the model on witnesses. -/
def sampleEnv : ChainEnv :=
  { get_account_limits := fun _ => (1024, 1, 1)
    is_resource_greylisted := fun _ => false
    get_account_net_limit_ex := fun _ _ => ⟨0, 0, 0⟩
    get_account_cpu_limit_ex := fun _ _ => ⟨0, 0, 0⟩
    get_account_ram_usage := fun _ => 10
    token_rows := fun _ _ => []
    last_irreversible_block_num := 90 }

/-- A concrete block used to evaluate the model on witnesses. -/
def sampleBlock : Block :=
  { block_num := 10, digest := "d10", timestamp := 1000, transactions := [] }

/-- A non-blacklisted top-level action with a blacklisted
(`blocktwitter`, `tweet`) nested inline action. -/
def nestedBlacklistTrace : ActionTrace :=
  .mk ⟨"someacct", "doit", .raw⟩ "someacct" 1
    [.mk ⟨"blocktwitter", "tweet", .raw⟩ "blocktwitter" 2 []]

/-- A `transfer` on the `eosio.token` system account: the account is
discovered by the walker and is also recorded as a token contract. -/
def systemTokenTrace : ActionTrace :=
  .mk ⟨"eosio.token", "transfer", .raw⟩ "eosio.token" 7 []

/-- A `transfer` on contract `tok.a` received by `alice`: two discovered
accounts and one token contract. -/
def transferTrace : ActionTrace :=
  .mk ⟨"tok.a", "transfer", .raw⟩ "alice" 9 []

/-! ## Helper lemmas -/

theorem mem_insertName (c n : Name) (s : List Name) :
    c ∈ insertName n s ↔ c = n ∨ c ∈ s := by
  unfold insertName
  split
  next hmem =>
    constructor
    · exact Or.inr
    · rintro (rfl | h)
      · exact hmem
      · exact h
  next hmem =>
    simp only [List.mem_append, List.mem_singleton]
    exact or_comm

theorem nodup_insertName (n : Name) (s : List Name) (h : s.Nodup) :
    (insertName n s).Nodup := by
  unfold insertName
  split
  next => exact h
  next hmem =>
    refine List.Nodup.append h (List.nodup_singleton n) ?_
    intro a ha hb
    rw [List.mem_singleton] at hb
    subst hb
    exact hmem ha

theorem mem_foldl_insertName (c : Name) (l : List Name) (s : List Name) :
    c ∈ l.foldl (fun s n => insertName n s) s ↔ c ∈ s ∨ c ∈ l := by
  induction l generalizing s with
  | nil => simp
  | cons x xs ih =>
      simp only [List.foldl_cons, ih, mem_insertName, List.mem_cons]
      tauto

theorem nodup_foldl_insertName (l : List Name) (s : List Name) (h : s.Nodup) :
    (l.foldl (fun s n => insertName n s) s).Nodup := by
  induction l generalizing s with
  | nil => exact h
  | cons x xs ih => exact ih _ (nodup_insertName _ _ h)

theorem exists_tokenNode_append (c : Name) (l1 l2 : List ActionTrace) :
    (∃ u ∈ l1 ++ l2, tokenNode c u) ↔
      (∃ u ∈ l1, tokenNode c u) ∨ (∃ u ∈ l2, tokenNode c u) := by
  constructor
  · rintro ⟨u, hu, hp⟩
    rcases List.mem_append.mp hu with h | h
    · exact Or.inl ⟨u, h, hp⟩
    · exact Or.inr ⟨u, h, hp⟩
  · rintro (⟨u, hu, hp⟩ | ⟨u, hu, hp⟩)
    · exact ⟨u, List.mem_append.mpr (Or.inl hu), hp⟩
    · exact ⟨u, List.mem_append.mpr (Or.inr hu), hp⟩

mutual
/-- A name is in the walker's token-contract set exactly when it was there
already or some node of the tree is a transfer/issue/open action on that
(non-system) contract account. -/
theorem mem_tokens_find (t : ActionTrace) (accs toks : List Name)
    (c : Name) :
    c ∈ (find_accounts_and_tokens t accs toks).2 ↔
      c ∈ toks ∨ ∃ u ∈ allNodes t, tokenNode c u := by
  cases t with
  | mk act receiver g inls =>
      simp only [find_accounts_and_tokens,
        mem_tokens_find_list inls _ _ c, allNodes,
        List.exists_mem_cons_iff, tokenNode, ActionTrace.act]
      split
      next hcond =>
        simp only [mem_insertName]
        constructor
        · rintro ((rfl | h) | h)
          · exact Or.inr (Or.inl ⟨rfl, hcond.1, hcond.2⟩)
          · exact Or.inl h
          · exact Or.inr (Or.inr h)
        · rintro (h | (⟨h1, _, _⟩ | h))
          · exact Or.inl (Or.inr h)
          · exact Or.inl (Or.inl h1.symm)
          · exact Or.inr h
      next hcond =>
        constructor
        · rintro (h | h)
          · exact Or.inl h
          · exact Or.inr (Or.inr h)
        · rintro (h | (⟨h1, h2, h3⟩ | h))
          · exact Or.inl h
          · exact absurd ⟨h2, h3⟩ hcond
          · exact Or.inr h

theorem mem_tokens_find_list (l : List ActionTrace) (accs toks : List Name)
    (c : Name) :
    c ∈ (find_accounts_and_tokens_list l accs toks).2 ↔
      c ∈ toks ∨ ∃ u ∈ allNodesList l, tokenNode c u := by
  cases l with
  | nil => simp [find_accounts_and_tokens_list, allNodesList]
  | cons x xs =>
      simp only [find_accounts_and_tokens_list,
        mem_tokens_find_list xs _ _ c, mem_tokens_find x _ _ c,
        allNodesList, exists_tokenNode_append]
      rw [or_assoc]
end

mutual
/-- The walker preserves uniqueness of both accumulated sets. -/
theorem nodup_find (t : ActionTrace) (accs toks : List Name)
    (h1 : accs.Nodup) (h2 : toks.Nodup) :
    (find_accounts_and_tokens t accs toks).1.Nodup ∧
    (find_accounts_and_tokens t accs toks).2.Nodup := by
  cases t with
  | mk act receiver g inls =>
      simp only [find_accounts_and_tokens]
      apply nodup_find_list
      · split
        next =>
          apply nodup_foldl_insertName
          split
          next => exact nodup_insertName _ _ (nodup_insertName _ _ h1)
          next => exact nodup_insertName _ _ h1
        next =>
          split
          next => exact nodup_insertName _ _ (nodup_insertName _ _ h1)
          next => exact nodup_insertName _ _ h1
      · split
        next => exact nodup_insertName _ _ h2
        next => exact h2

theorem nodup_find_list (l : List ActionTrace) (accs toks : List Name)
    (h1 : accs.Nodup) (h2 : toks.Nodup) :
    (find_accounts_and_tokens_list l accs toks).1.Nodup ∧
    (find_accounts_and_tokens_list l accs toks).2.Nodup := by
  cases l with
  | nil => exact ⟨h1, h2⟩
  | cons x xs =>
      simp only [find_accounts_and_tokens_list]
      exact nodup_find_list xs _ _ (nodup_find x accs toks h1 h2).1
        (nodup_find x accs toks h1 h2).2
end

/-- The account loop of `on_action_trace` performs one resource lookup per
account of interest (in set order) and one token-balance lookup per
(account of interest, discovered token contract) pair. -/
theorem enrich_foldl_lookups (env : ChainEnv) (tokens : List Name)
    (accounts : List Name) (init : EnrichResult) :
    (accounts.foldl (enrich_step env tokens) init).resource_lookups =
      init.resource_lookups ++
        accounts.filter (fun a => is_account_of_interest a) ∧
    (accounts.foldl (enrich_step env tokens) init).currency_lookups =
      init.currency_lookups ++
        (accounts.filter (fun a => is_account_of_interest a)).flatMap
          (fun a => tokens.map (fun c => (a, c))) := by
  induction accounts generalizing init with
  | nil => simp
  | cons x xs ih =>
      cases hx : is_account_of_interest x with
      | true =>
          have hres : (enrich_step env tokens init x).resource_lookups =
              init.resource_lookups ++ [x] := by
            simp [enrich_step, hx]
          have hcur : (enrich_step env tokens init x).currency_lookups =
              init.currency_lookups ++ tokens.map (fun c => (x, c)) := by
            simp [enrich_step, hx]
          obtain ⟨ih1, ih2⟩ := ih (enrich_step env tokens init x)
          constructor
          · rw [List.foldl_cons, ih1, hres,
              List.filter_cons_of_pos (by simp [hx]),
              List.append_assoc, List.singleton_append]
          · rw [List.foldl_cons, ih2, hcur,
              List.filter_cons_of_pos (by simp [hx]),
              List.flatMap_cons, List.append_assoc]
      | false =>
          have hstep : enrich_step env tokens init x = init := by
            simp [enrich_step, hx]
          obtain ⟨ih1, ih2⟩ := ih init
          constructor
          · rw [List.foldl_cons, hstep, ih1,
              List.filter_cons_of_neg (by simp [hx])]
          · rw [List.foldl_cons, hstep, ih2,
              List.filter_cons_of_neg (by simp [hx])]

/-- No receipt ever contributes a Fork event. -/
theorem countP_isFork_process_receipt (env : ChainEnv)
    (cache : List (TxId × TransactionTrace)) (blk : Block)
    (r : TransactionReceipt) :
    (process_receipt env cache blk r).1.countP isFork = 0 := by
  simp only [process_receipt]
  split
  next =>
    cases hfind : mapFind cache (trx_id r.trx) with
    | none => simp [hfind]
    | some tr =>
        simp only [hfind]
        cases htr : tr.receipt with
        | false => simp [htr]
        | true =>
            simp only [htr, if_pos, List.countP_eq_zero]
            intro e he
            rw [List.mem_filterMap] at he
            obtain ⟨a, _, heq⟩ := he
            rw [Option.map_eq_some'] at heq
            obtain ⟨res, _, rfl⟩ := heq
            simp [isFork]
  next => simp [isFork]

/-- Little-endian 32-bit round trip for any value in `int32_t` range. -/
theorem int32_roundtrip (v : Int) (h1 : -2147483648 ≤ v)
    (h2 : v < 2147483648) :
    int32OfBytes (int32ToBytes v) = v := by
  unfold int32ToBytes toBytes4 int32OfBytes bytesToNat4
  simp only []
  split <;> omega

/-- Looking up the key just stored finds the stored value. -/
theorem mapFind_mapInsert_self (k : TxId) (v : TransactionTrace)
    (m : List (TxId × TransactionTrace)) :
    mapFind (mapInsert k v m) k = some v := by
  induction m with
  | nil => simp [mapInsert, mapFind]
  | cons kv rest ih =>
      by_cases h : kv.1 = k <;> simp [mapInsert, mapFind, h, ih]

/-- Storing a trace leaves every other key's entry unchanged. -/
theorem mapFind_mapInsert_other (k j : TxId) (v : TransactionTrace)
    (m : List (TxId × TransactionTrace)) (h : j ≠ k) :
    mapFind (mapInsert k v m) j = mapFind m j := by
  induction m with
  | nil => simp [mapInsert, mapFind, Ne.symm h]
  | cons kv rest ih =>
      by_cases h1 : kv.1 = k
      · by_cases h2 : kv.1 = j <;>
          simp_all [mapInsert, mapFind, Ne.symm h]
      · by_cases h2 : kv.1 = j <;> simp [mapInsert, mapFind, h1, h2, ih, h]

/-- The enrichment lookups of a non-blacklisted `on_action_trace` call:
one resource lookup per discovered account of interest, and one
token-balance lookup per (account of interest, token contract) pair. -/
theorem action_trace_lookups_eq (env : ChainEnv) (blk : Block)
    (atr : ActionTrace)
    (h : blacklisted atr.act.account atr.act.name = false) :
    (action_trace_lookups env blk atr).1 =
      (find_accounts_and_tokens atr [] []).1.filter
        (fun a => is_account_of_interest a) ∧
    (action_trace_lookups env blk atr).2 =
      ((find_accounts_and_tokens atr [] []).1.filter
        (fun a => is_account_of_interest a)).flatMap
        (fun a => (find_accounts_and_tokens atr [] []).2.map
          (fun c => (a, c))) := by
  have h1 := enrich_foldl_lookups env (find_accounts_and_tokens atr [] []).2
    (find_accounts_and_tokens atr [] []).1
    ⟨{ global_action_seq := atr.global_sequence
       block_num := blk.block_num
       block_time := blk.timestamp
       action_trace := atr
       resource_balances := []
       currency_balances := []
       last_irreversible_block := env.last_irreversible_block_num }, [], []⟩
  simp only [action_trace_lookups, on_action_trace, h, Bool.false_eq_true,
    if_false]
  exact ⟨by simp [h1.1], by simp [h1.2]⟩

/-! ## The claims -/

/-- C1: on every `on_accepted_block` call with incoming block number `n`,
a Fork event carrying `n` is emitted exactly when `n ≤ _end_block` held at
the start of the call, it is the first event of the call and the only Fork
event of the call (otherwise the AcceptedBlock event comes first and no
Fork is emitted); in every case `_end_block` is then set to `n` and an
AcceptedBlock event carrying `n` and the block digest is emitted. -/
theorem c1_fork_detection (env : ChainEnv) (st : PluginState) (blk : Block) :
    ((on_accepted_block env st blk).2.1.head? =
      (if blk.block_num ≤ st._end_block then some (Event.fork blk.block_num)
       else some (Event.acceptedBlock blk.block_num blk.digest))) ∧
    ((on_accepted_block env st blk).2.1.countP isFork =
      (if blk.block_num ≤ st._end_block then 1 else 0)) ∧
    (on_accepted_block env st blk).1._end_block = blk.block_num ∧
    Event.acceptedBlock blk.block_num blk.digest ∈
      (on_accepted_block env st blk).2.1 := by
  have hflat : ((blk.transactions.map
      (process_receipt env st.cached_traces blk)).map
        Prod.fst).flatten.countP isFork = 0 := by
    rw [List.countP_flatten]
    apply List.sum_eq_zero
    intro x hx
    simp only [List.map_map, List.mem_map, Function.comp] at hx
    obtain ⟨r, _, rfl⟩ := hx
    exact countP_isFork_process_receipt env st.cached_traces blk r
  refine ⟨?_, ?_, rfl, ?_⟩
  · simp only [on_accepted_block, ge_iff_le]
    split <;> simp
  · simp only [on_accepted_block, ge_iff_le, List.countP_append, hflat]
    split <;> simp [isFork]
  · simp only [on_accepted_block, ge_iff_le]
    split <;> simp

/-- C3: the trace cache is empty after every `on_accepted_block` call,
in particular after any sequence of `on_applied_transaction` calls
followed by one `on_accepted_block`. -/
theorem c3_cache_cleared (env : ChainEnv) (st : PluginState) (blk : Block)
    (ps : List TransactionTrace) :
    (on_accepted_block env st blk).1.cached_traces = [] ∧
    (on_accepted_block env (ps.foldl on_applied_transaction st)
        blk).1.cached_traces = [] :=
  ⟨rfl, rfl⟩

/-- C4: a receipt whose status is not `executed` produces exactly one
FailedTransaction event, carrying the resolved transaction id, the block
number and the symbolic and raw numeric status, and nothing else (no
ActionTrace event, no log line); the events of the whole block are the
fork/accepted prelude followed by the concatenated per-receipt results. -/
theorem c4_failed_transaction (env : ChainEnv) (st : PluginState)
    (blk : Block) (r : TransactionReceipt)
    (h : r.status ≠ TxStatus.executed) :
    process_receipt env st.cached_traces blk r =
      ([Event.failedTransaction (trx_id r.trx) blk.block_num r.status
          (statusInt r.status)], []) ∧
    (on_accepted_block env st blk).2.1 =
      (if blk.block_num ≤ st._end_block then [Event.fork blk.block_num]
       else []) ++
      [Event.acceptedBlock blk.block_num blk.digest] ++
      (blk.transactions.map
        (fun x => (process_receipt env st.cached_traces blk x).1)).flatten := by
  constructor
  · simp only [process_receipt]
    rw [if_neg h]
  · simp only [on_accepted_block, ge_iff_le, List.map_map]
    rfl

/-- C4 witness: an expired receipt in a concrete block. -/
theorem c4_failed_transaction_witness :
    (TransactionReceipt.mk (.bare "t1") .expired).status ≠
      TxStatus.executed ∧
    process_receipt sampleEnv [] sampleBlock ⟨.bare "t1", .expired⟩ =
      ([Event.failedTransaction "t1" 10 TxStatus.expired 4], []) :=
  ⟨by decide,
   (c4_failed_transaction sampleEnv ⟨[], 5⟩ sampleBlock
      ⟨.bare "t1", .expired⟩ (by decide)).1⟩

/-- C5: `on_applied_transaction` stores the trace keyed by its id exactly
when it carries a receipt (overwriting any prior entry for that key and
leaving other keys untouched), and is a no-op on the whole state
otherwise. -/
theorem c5_cache_store (st : PluginState) (p : TransactionTrace)
    (k : TxId) :
    on_applied_transaction st p =
      (if p.receipt then
        { st with cached_traces := mapInsert p.id p st.cached_traces }
       else st) ∧
    mapFind (mapInsert p.id p st.cached_traces) p.id = some p ∧
    (if k = p.id then True
     else mapFind (mapInsert p.id p st.cached_traces) k =
       mapFind st.cached_traces k) := by
  refine ⟨rfl, mapFind_mapInsert_self p.id p st.cached_traces, ?_⟩
  by_cases hk : k = p.id
  · simp [hk]
  · simpa [hk] using
      mapFind_mapInsert_other p.id k p st.cached_traces hk

/-- C6: an executed receipt whose id has no cached trace, or whose cached
trace lacks a receipt, contributes no event — only the missing-trace log
line — and block processing continues: the block's event stream is still
the fork/accepted prelude followed by the concatenated per-receipt
results. -/
theorem c6_missing_trace_skip (env : ChainEnv) (st : PluginState)
    (blk : Block) (r : TransactionReceipt)
    (hex : r.status = TxStatus.executed)
    (hmiss : trace_missing st.cached_traces (trx_id r.trx) = true) :
    process_receipt env st.cached_traces blk r = ([], [trx_id r.trx]) ∧
    (on_accepted_block env st blk).2.1 =
      (if blk.block_num ≤ st._end_block then [Event.fork blk.block_num]
       else []) ++
      [Event.acceptedBlock blk.block_num blk.digest] ++
      (blk.transactions.map
        (fun x => (process_receipt env st.cached_traces blk x).1)).flatten := by
  constructor
  · simp only [process_receipt, if_pos hex]
    unfold trace_missing at hmiss
    cases hfind : mapFind st.cached_traces (trx_id r.trx) with
    | none => simp [hfind]
    | some tr =>
        rw [hfind] at hmiss
        simp only [Bool.not_eq_eq_eq_not, Bool.not_true] at hmiss
        simp [hfind, hmiss]
  · simp only [on_accepted_block, ge_iff_le, List.map_map]
    rfl

/-- C6 witness: an executed receipt against an empty cache (scenario C). -/
theorem c6_missing_trace_witness :
    (TransactionReceipt.mk (.bare "t2") .executed).status =
      TxStatus.executed ∧
    trace_missing ([] : List (TxId × TransactionTrace)) "t2" = true ∧
    process_receipt sampleEnv [] sampleBlock ⟨.bare "t2", .executed⟩ =
      ([], ["t2"]) :=
  ⟨by decide, by decide,
   (c6_missing_trace_skip sampleEnv ⟨[], 5⟩ sampleBlock
      ⟨.bare "t2", .executed⟩ (by decide) (by decide)).1⟩

/-- C7: resource snapshots and token-balance lookups are never performed
for accounts of the system account set, even when the walker discovers
them. -/
theorem c7_system_accounts_skipped (env : ChainEnv) (blk : Block)
    (atr : ActionTrace) (a c : Name) (ha : a ∈ system_accounts) :
    a ∉ (action_trace_lookups env blk atr).1 ∧
    (a, c) ∉ (action_trace_lookups env blk atr).2 := by
  have hfalse : is_account_of_interest a = false := by
    simp [is_account_of_interest, ha]
  cases hbl : blacklisted atr.act.account atr.act.name with
  | true => simp [action_trace_lookups, on_action_trace, hbl]
  | false =>
      obtain ⟨h1, h2⟩ := action_trace_lookups_eq env blk atr hbl
      constructor
      · rw [h1]
        intro hmem
        rw [List.mem_filter] at hmem
        simp [hfalse] at hmem
      · rw [h2]
        intro hmem
        rw [List.mem_flatMap] at hmem
        obtain ⟨x, hx, hpair⟩ := hmem
        rw [List.mem_map] at hpair
        obtain ⟨cc, _, heq⟩ := hpair
        injection heq with hxa hccc
        subst hxa
        rw [List.mem_filter] at hx
        simp [hfalse] at hx

/-- C7 witness: `eosio.token` is discovered by the walker (as account and
token contract) yet never enriched. -/
theorem c7_system_accounts_witness :
    "eosio.token" ∈ system_accounts ∧
    "eosio.token" ∈ (find_accounts_and_tokens systemTokenTrace [] []).1 ∧
    "eosio.token" ∉
      (action_trace_lookups sampleEnv sampleBlock systemTokenTrace).1 ∧
    ("eosio.token", "eosio.token") ∉
      (action_trace_lookups sampleEnv sampleBlock systemTokenTrace).2 :=
  ⟨by decide, by decide,
   (c7_system_accounts_skipped sampleEnv sampleBlock systemTokenTrace
      "eosio.token" "eosio.token" (by decide)).1,
   (c7_system_accounts_skipped sampleEnv sampleBlock systemTokenTrace
      "eosio.token" "eosio.token" (by decide)).2⟩

/-- C8: a contract account is in the token-contract set of a walk exactly
when some action of the walked tree runs on that account, the account is
not the system contract, and the action name is transfer, issue or open. -/
theorem c8_token_heuristic (t : ActionTrace) (c : Name) :
    c ∈ (find_accounts_and_tokens t [] []).2 ↔
      ∃ u ∈ allNodes t, tokenNode c u := by
  rw [mem_tokens_find]
  simp

/-- C9: every frame is the 4 little-endian bytes of the message type, then
4 bytes of the options, then the raw document bytes with no length field,
and decoding the 8-byte header recovers the message type and options
supplied to `send_msg`. -/
theorem c9_frame_roundtrip (content : List Nat) (msgtype msgopts : Int)
    (h1 : -2147483648 ≤ msgtype) (h2 : msgtype < 2147483648)
    (h3 : -2147483648 ≤ msgopts) (h4 : msgopts < 2147483648) :
    send_msg content msgtype msgopts =
      int32ToBytes msgtype ++ int32ToBytes msgopts ++ content ∧
    (int32ToBytes msgtype).length = 4 ∧
    (int32ToBytes msgopts).length = 4 ∧
    decode_header (send_msg content msgtype msgopts) =
      (msgtype, msgopts) := by
  refine ⟨rfl, rfl, rfl, ?_⟩
  unfold decode_header send_msg
  rw [List.append_assoc, List.take_left' (by rfl), List.drop_left' (by rfl),
    List.take_left' (by rfl), int32_roundtrip msgtype h1 h2,
    int32_roundtrip msgopts h3 h4]

/-- C9 witness: a FailedTransaction-typed frame with options 0. -/
theorem c9_frame_roundtrip_witness :
    (-2147483648 ≤ (4 : Int) ∧ (4 : Int) < 2147483648 ∧
     -2147483648 ≤ (0 : Int) ∧ (0 : Int) < 2147483648) ∧
    decode_header (send_msg [123, 34] 4 0) = (4, 0) :=
  ⟨by decide,
   (c9_frame_roundtrip [123, 34] 4 0 (by decide) (by decide) (by decide)
      (by decide)).2.2.2⟩

/-- C10: for a non-blacklisted action, the token-balance lookups cover
exactly the full cross product of the discovered accounts of interest and
the discovered token contracts (whether or not a pair interacted), and the
resource snapshot is fetched exactly once per discovered account of
interest (an account of interest being one outside `system_accounts`). -/
theorem c10_cross_product (env : ChainEnv) (blk : Block)
    (atr : ActionTrace) (a c : Name)
    (h : blacklisted atr.act.account atr.act.name = false) :
    ((a, c) ∈ (action_trace_lookups env blk atr).2 ↔
      a ∈ (find_accounts_and_tokens atr [] []).1 ∧
      is_account_of_interest a = true ∧
      c ∈ (find_accounts_and_tokens atr [] []).2) ∧
    (action_trace_lookups env blk atr).1 =
      (find_accounts_and_tokens atr [] []).1.filter
        (fun x => is_account_of_interest x) ∧
    (action_trace_lookups env blk atr).1.Nodup ∧
    (is_account_of_interest a = true ↔ a ∉ system_accounts) := by
  obtain ⟨h1, h2⟩ := action_trace_lookups_eq env blk atr h
  refine ⟨?_, h1, ?_, ?_⟩
  · rw [h2]
    constructor
    · intro hmem
      rw [List.mem_flatMap] at hmem
      obtain ⟨x, hx, hpair⟩ := hmem
      rw [List.mem_map] at hpair
      obtain ⟨cc, hcc, heq⟩ := hpair
      injection heq with hxa hccc
      subst hxa
      subst hccc
      rw [List.mem_filter] at hx
      exact ⟨hx.1, hx.2, hcc⟩
    · rintro ⟨hmem, hint, hc⟩
      rw [List.mem_flatMap]
      exact ⟨a, List.mem_filter.mpr ⟨hmem, hint⟩,
        List.mem_map.mpr ⟨c, hc, rfl⟩⟩
  · rw [h1]
    exact List.Nodup.filter _
      (nodup_find atr [] [] List.nodup_nil List.nodup_nil).1
  · by_cases hx : a ∈ system_accounts <;>
      simp [is_account_of_interest, hx]

/-- C10 witness: a `transfer` on `tok.a` received by `alice`: the
(`alice`, `tok.a`) pair is looked up even though `alice` only received. -/
theorem c10_cross_product_witness :
    blacklisted "tok.a" "transfer" = false ∧
    (("alice", "tok.a") ∈
        (action_trace_lookups sampleEnv sampleBlock transferTrace).2 ↔
      "alice" ∈ (find_accounts_and_tokens transferTrace [] []).1 ∧
      is_account_of_interest "alice" = true ∧
      "tok.a" ∈ (find_accounts_and_tokens transferTrace [] []).2) :=
  ⟨by decide,
   (c10_cross_product sampleEnv sampleBlock transferTrace "alice" "tok.a"
      (by decide)).1⟩

/-- C2 does not hold as stated: the blacklisted (`blocktwitter`, `tweet`)
action, nested inline under a non-blacklisted action, is still walked —
its account is discovered and a resource lookup is performed for it. -/
theorem c2_counterexample :
    blacklisted "blocktwitter" "tweet" = true ∧
    blacklisted "someacct" "doit" = false ∧
    "blocktwitter" ∈
      (find_accounts_and_tokens nestedBlacklistTrace [] []).1 ∧
    "blocktwitter" ∈
      (action_trace_lookups sampleEnv sampleBlock nestedBlacklistTrace).1 := by
  decide

/-- C2 (amended): blacklist suppression applies exactly to the top-level
action handed to `on_action_trace`: a blacklisted top-level action yields
no event and no discovery or enrichment lookups at all; a blacklisted
action nested inline under a non-blacklisted one is still walked. -/
theorem c2_blacklist_top_level (env : ChainEnv) (blk : Block)
    (atr : ActionTrace)
    (h : blacklisted atr.act.account atr.act.name = true) :
    on_action_trace env blk atr = none ∧
    action_trace_lookups env blk atr = ([], []) := by
  have h1 : on_action_trace env blk atr = none := by
    simp [on_action_trace, h]
  exact ⟨h1, by simp [action_trace_lookups, h1]⟩

/-- C2 amended witness: the blacklisted `eosio::onblock` top-level
action. -/
theorem c2_blacklist_top_level_witness :
    blacklisted "eosio" "onblock" = true ∧
    on_action_trace sampleEnv sampleBlock
      (.mk ⟨"eosio", "onblock", .raw⟩ "eosio" 3 []) = none :=
  ⟨by decide,
   (c2_blacklist_top_level sampleEnv sampleBlock
      (.mk ⟨"eosio", "onblock", .raw⟩ "eosio" 3 []) (by decide)).1⟩

end ZmqPlugin
